import Mathlib

/-!
Verification development for a small RISC-V teaching kernel (rCore-style).

The definitions below are a shallow embedding of the kernel's source:
machine integers (`usize`/`u64`) are natural numbers taken modulo `2 ^ 64`
at exactly the operations where the Rust source wraps (release-mode
arithmetic), fallible operations return `Option`, and stateful kernel
operations are explicit functions from the relevant state to the new
state together with the syscall's return value.

Sources embedded here:
  * `os/src/task/stride.rs`     - the stride scheduling state,
  * `os/src/task/manager.rs`    - the ready queue (`add` / `fetch`),
  * `os/src/task/processor.rs`  - the dispatch loop `run_tasks`,
  * `os/src/task/task.rs`       - `mark_running`, `fork_with`,
  * `os/src/syscall/process.rs` - `sys_fork`, `sys_waitpid`, `sys_mmap`,
                                  `sys_munmap`,
  * `os/src/syscall/fs.rs`      - `sys_fstat`, `sys_unlinkat`,
  * `easy-fs/src/vfs.rs`        - `Inode::link_times`, `Inode::unlink`.

`memory_set.rs` is not part of the provided sources; the one operation of
it that a claim needs (`MemorySet::shrink_to`) is modelled from the spec
and marked as such in its doc comment.
-/

namespace RCore

/-- `2 ^ 64`, the modulus of `usize` / `u64` arithmetic on the rv64 target. -/
def U64_MOD : Nat := 2 ^ 64

/-- `PAGE_SIZE` from `os/src/config.rs` (`0x1000`). -/
def PAGE_SIZE : Nat := 4096

/-- Wrapping `u64` addition (Rust release-mode `+`). -/
def wadd (a b : Nat) : Nat := (a + b) % U64_MOD

/-- Wrapping `u64` subtraction (Rust release-mode `-`). -/
def wsub (a b : Nat) : Nat := (a % U64_MOD + (U64_MOD - b % U64_MOD)) % U64_MOD

/-- Wrapping `u64` multiplication (Rust release-mode `*`). -/
def wmul (a b : Nat) : Nat := (a * b) % U64_MOD

/-- The two's-complement cast `i as usize` for a 64-bit `isize`. -/
def usizeOfInt (i : Int) : Nat := (i % (2 ^ 64 : Int)).toNat

/-! ## Stride scheduling state (`os/src/task/stride.rs`) -/

/-- The `Stride` pair carried by every task control block. -/
structure Stride where
  pass : Nat
  step : Nat
deriving DecidableEq

/-- `BIG_STRIDE = u64::MAX` from `stride.rs`. -/
def BIG_STRIDE : Nat := U64_MOD - 1

/-- `MIN_PRIORITY = 2` from `stride.rs`. -/
def MIN_PRIORITY : Int := 2

/-- `DEFAULT_PRIORITY = 16` from `stride.rs`. -/
def DEFAULT_PRIORITY : Int := 16

/-- `Stride::new(priority)`: `pass = 0`, `step = BIG_STRIDE / (priority as u64)`. -/
def Stride.new (priority : Int) : Stride :=
  { pass := 0, step := BIG_STRIDE / usizeOfInt priority }

/-- `Stride::copy_priority(other)` exactly as written in the source:
`pass = 0` and `step = other.pass` (the source reads the parent's `pass`
field, not its `step` field). -/
def Stride.copy_priority (other : Stride) : Stride :=
  { pass := 0, step := other.pass }

/-- `Stride::default()` = `Stride::new(DEFAULT_PRIORITY)`. -/
def Stride.default : Stride := Stride.new DEFAULT_PRIORITY

/-- `<StepByOne for Stride>::step`: `self.pass += self.step` (wrapping). -/
def Stride.stepOnce (s : Stride) : Stride :=
  { pass := wadd s.pass s.step, step := s.step }

/-- `<PartialOrd for Stride>::partial_cmp`: computes `diff = self.pass - other.pass`
(wrapping u64 subtraction) and returns `Less` when `diff < BIG_STRIDE / 2`,
`Greater` otherwise.  It never returns `Equal`. -/
def Stride.partialCmp (a b : Stride) : Ordering :=
  if wsub a.pass b.pass < BIG_STRIDE / 2 then Ordering.lt else Ordering.gt

/-- Rust's `a < b` for `Stride`: `partial_cmp(a, b) == Some(Less)`. -/
def Stride.lt (a b : Stride) : Bool :=
  a.partialCmp b == Ordering.lt

/-! ## Task control blocks (`os/src/task/task.rs`), scheduler-relevant fields -/

/-- `TaskStatus` from `task.rs`. -/
inductive TaskStatus where
  | UnInit
  | Ready
  | Running
  | Zombie
deriving DecidableEq

/-- The fields of `TaskControlBlockInner` that the scheduler claims touch:
the saved stride state, the task status, and the first-run timestamp. -/
structure TaskControlBlock where
  stride : Stride
  task_status : TaskStatus
  running_at_ms : Nat
deriving DecidableEq

/-- `TaskControlBlockInner::mark_running` from `task.rs` (present in the
source but never called): sets `Running`, records the first-run
timestamp, and steps the stride. -/
def TaskControlBlock.mark_running (t : TaskControlBlock) (now_ms : Nat) : TaskControlBlock :=
  { t with
    task_status := TaskStatus.Running
    running_at_ms := if t.running_at_ms = 0 then now_ms else t.running_at_ms
    stride := t.stride.stepOnce }

/-! ## The ready queue (`os/src/task/manager.rs`) -/

/-- The linear scan of `TaskManager::fetch`: `min_index` starts at 0 and the
loop walks every `(i, value)` of the queue, replacing the candidate whenever
`value < dq[min_index]` under the stride order.  The accumulator carries the
candidate index together with the candidate element itself; the queue is
not mutated during the loop, so the carried element is always `dq[min_index]`. -/
def fetchScan : List TaskControlBlock → Nat → Nat × TaskControlBlock → Nat × TaskControlBlock
  | [], _, best => best
  | t :: rest, i, best =>
      fetchScan rest (i + 1) (if Stride.lt t.stride best.2.stride then (i, t) else best)

namespace TaskManager

/-- `TaskManager::add`: `push_back` on the ready queue. -/
def add (dq : List TaskControlBlock) (task : TaskControlBlock) : List TaskControlBlock :=
  dq ++ [task]

/-- `TaskManager::fetch`: returns `None` on an empty queue, otherwise scans
for `min_index` and removes (`VecDeque::remove`) and returns that element. -/
def fetch (dq : List TaskControlBlock) : Option (TaskControlBlock × List TaskControlBlock) :=
  match dq with
  | [] => none
  | t0 :: _ =>
      let best := fetchScan dq 0 (0, t0)
      some (best.2, dq.eraseIdx best.1)

end TaskManager

/-! ## The dispatch loop (`os/src/task/processor.rs`) -/

/-- One successful iteration of `run_tasks`: fetch a ready task, set its
status to `Running`, record its first-run timestamp if it is zero, and
make it current (the returned first component), leaving the rest of the
ready queue.  This is everything `run_tasks` does to the task control
block before `__switch`; in particular the source does not touch the
task's stride here. -/
def runTasksStep (dq : List TaskControlBlock) (now_ms : Nat) :
    Option (TaskControlBlock × List TaskControlBlock) :=
  match TaskManager.fetch dq with
  | none => none
  | some (task, rest) =>
      some ({ task with
              task_status := TaskStatus.Running
              running_at_ms := if task.running_at_ms = 0 then now_ms else task.running_at_ms },
            rest)

/-! ## Fork (`os/src/task/task.rs` `fork_with`, `os/src/syscall/process.rs` `sys_fork`) -/

/-- The child state produced by fork, restricted to the fields the fork
claims talk about: the child's stride and the child's saved trap-context
`a0` register (`x[10]`). -/
structure ForkedChild where
  stride : Stride
  a0 : Nat
  task_status : TaskStatus
  running_at_ms : Nat
deriving DecidableEq

/-- `TaskControlBlock::fork_with` as far as these fields go: the child's
stride is `Stride::copy_priority(&parent.stride)`, its status is `Ready`,
its first-run timestamp is 0, and its trap context (hence `a0`) is a copy
of the parent's. -/
def fork_with (parentStride : Stride) (parentA0 : Nat) : ForkedChild :=
  { stride := Stride.copy_priority parentStride
    a0 := parentA0
    task_status := TaskStatus.Ready
    running_at_ms := 0 }

/-- `sys_fork`: forks the current task and then overwrites the child's
trap-context `a0` (`trap_cx.x[10] = 0`) so the syscall returns 0 in the
child. -/
def sys_fork_child (parentStride : Stride) (parentA0 : Nat) : ForkedChild :=
  { fork_with parentStride parentA0 with a0 := 0 }

/-! ## Waitpid (`os/src/syscall/process.rs` `sys_waitpid`) -/

/-- The fields of a child task control block that `sys_waitpid` reads. -/
structure ChildTCB where
  pid : Nat
  status : TaskStatus
  exit_code : Int
deriving DecidableEq

/-- `TaskControlBlockInner::is_zombie`. -/
def ChildTCB.is_zombie (p : ChildTCB) : Bool :=
  p.status == TaskStatus.Zombie

/-- The per-child test of `sys_waitpid`: `pid == -1 || pid as usize == p.getpid()`. -/
def childMatches (pid : Int) (p : ChildTCB) : Bool :=
  pid == -1 || usizeOfInt pid == p.pid

/-- The `children.iter().enumerate().find(..)` of `sys_waitpid`: the first
child (with its index) that is a zombie and matches `pid`. -/
def findWaitChild (pid : Int) : List ChildTCB → Option (Nat × ChildTCB)
  | [] => none
  | p :: rest =>
      if p.is_zombie && childMatches pid p then some (0, p)
      else
        match findWaitChild pid rest with
        | none => none
        | some (j, c) => some (j + 1, c)

/-- `sys_waitpid(pid, exit_code_ptr)` on the caller's children vector.
Returns the syscall result, the new children vector, and the exit code
written through `exit_code_ptr` (if any). -/
def sys_waitpid (children : List ChildTCB) (pid : Int) :
    Int × List ChildTCB × Option Int :=
  if !(children.any (childMatches pid)) then (-1, children, none)
  else
    match findWaitChild pid children with
    | some (idx, child) => (Int.ofNat child.pid, children.eraseIdx idx, some child.exit_code)
    | none => (-2, children, none)

/-! ## Root directory and inodes (`easy-fs/src/vfs.rs`) -/

/-- A 32-byte on-disk directory entry at the granularity the claims need:
the (NUL-trimmed) name and the inode id.  `DirEntry::empty()` is all
zeroes: name `""`, inode id `0` (a tombstone). -/
structure DirEntryM where
  name : String
  inode_id : Nat
deriving DecidableEq

/-- `DirEntry::empty()`: the all-zero tombstone entry. -/
def DirEntryM.empty : DirEntryM := { name := "", inode_id := 0 }

/-- `DiskInodeType` from `easy-fs`. -/
inductive DiskInodeType where
  | File
  | Dir
deriving DecidableEq

/-- `Inode::link_times(inode_id)`: walks every directory entry of the root
directory and counts those whose inode id equals `inode_id`. -/
def link_times (root : List DirEntryM) (inode_id : Nat) : Nat :=
  root.countP (fun d => d.inode_id == inode_id)

/-- The loop of `Inode::unlink`: find the first entry named `name`; if
found, overwrite it with `DirEntry::empty()` and succeed, else fail. -/
def unlinkScan (name : String) : List DirEntryM → Option (List DirEntryM)
  | [] => none
  | d :: rest =>
      if d.name = name then some (DirEntryM.empty :: rest)
      else (unlinkScan name rest).map (fun r => d :: r)

/-- `Inode::unlink(name)` (and `sys_unlinkat`, which forwards to it after
translating the name): writes an all-zero tombstone over the first root
directory entry whose name matches and returns 0, or returns -1 when no
entry matches.  The returned list is the new root directory; the source
performs no other mutation (in particular it never deallocates the inode
or its data blocks). -/
def Inode.unlink (root : List DirEntryM) (name : String) : Int × List DirEntryM :=
  match unlinkScan name root with
  | some root2 => (0, root2)
  | none => (-1, root)

/-! ## fstat (`os/src/syscall/fs.rs` `sys_fstat`) -/

/-- The fields of an open `OSInode` that `sys_fstat` reads: the inode id
and (for stating the claim about `mode`) the on-disk inode type. -/
structure OSInodeM where
  inode_id : Nat
  ty : DiskInodeType
deriving DecidableEq

/-- `StatMode` values (`FILE`, `DIR`). -/
inductive StatMode where
  | FILE
  | DIR
deriving DecidableEq

/-- The `Stat` record written through the user pointer by `sys_fstat`. -/
structure Stat where
  dev : Nat
  ino : Nat
  mode : StatMode
  nlink : Nat
deriving DecidableEq

/-- `sys_fstat(fd, st)`: rejects `fd >= fd_table.len() || fd <= 2` and
empty slots with -1 (writing nothing); otherwise writes
`dev = 0`, `ino = inode_id`, `mode = StatMode::FILE` (the source assigns
`FILE` unconditionally) and `nlink = link_times(inode_id)` over the root
directory, and returns 0.  The written `Stat` is the second component. -/
def sys_fstat (root : List DirEntryM) (fd_table : List (Option OSInodeM)) (fd : Nat) :
    Int × Option Stat :=
  if fd ≥ fd_table.length ∨ fd ≤ 2 then (-1, none)
  else
    match fd_table.getD fd none with
    | none => (-1, none)
    | some os =>
        (0, some { dev := 0
                   ino := os.inode_id
                   mode := StatMode.FILE
                   nlink := link_times root os.inode_id })

/-! ## mmap / munmap (`os/src/syscall/process.rs`) -/

/-- A leaf page-table lookup result: `translate(vpn)` yields `none` when no
page-table entry exists on the walk, or `some valid` with the entry's `V`
bit.  The page table itself is passed to the syscalls as this lookup
function. -/
def PageTranslate : Type := Nat → Option Bool

/-- `Option::is_some_and(|p| p.is_valid())` as used by `sys_mmap`. -/
def isSomeAndValid (o : Option Bool) : Bool :=
  match o with
  | some v => v
  | none => false

/-- `Option::is_some_and(|p| !p.is_valid())` as used by `sys_munmap`. -/
def isSomeAndInvalid (o : Option Bool) : Bool :=
  match o with
  | some v => !v
  | none => false

/-- Modelled from the spec: the `U` bit of `MapPermission` (bit 4; the spec
derives `perm = (port << 1) | U` and `memory_set.rs` is absent from src/). -/
def MapPermissionU : Nat := 16

/-- Modelled from the spec: `MapPermission::from_bits_truncate` keeps only
the defined permission bits R/W/X/U (bits 1-4) of its `u8` argument
(`memory_set.rs` is absent from src/). -/
def fromBitsTruncate (bits : Nat) : Nat :=
  (bits % 256) &&& 30

/-- The arguments of the `insert_framed_area` call made by a successful
`sys_mmap`: the start and end virtual addresses and the permission bits. -/
structure MmapEffect where
  va_start : Nat
  va_end : Nat
  permission : Nat
deriving DecidableEq

/-- `sys_mmap(start, len, port)`: the validation cascade of the source,
then the page-overlap scan over `pages = (len - 1 + PAGE_SIZE) / PAGE_SIZE`
pages (wrapping u64 arithmetic), then the `insert_framed_area` call with
`perm = from_bits_truncate((port << 1) as u8) | U`.  Returns the syscall
result and the recorded `insert_framed_area` arguments on success. -/
def sys_mmap (translate : PageTranslate) (start len port : Nat) : Int × Option MmapEffect :=
  if len = 0 then (-1, none)
  else if port &&& (U64_MOD - 8) ≠ 0 then (-1, none)
  else if port &&& 7 = 0 then (-1, none)
  else if start &&& (PAGE_SIZE - 1) ≠ 0 then (-1, none)
  else if (List.range (wadd (wsub len 1) PAGE_SIZE / PAGE_SIZE)).any
      (fun i => isSomeAndValid (translate (start / PAGE_SIZE + i))) then
    (-1, none)
  else
    (0, some { va_start := start
               va_end := wadd start (wmul (wadd (wsub len 1) PAGE_SIZE / PAGE_SIZE) PAGE_SIZE)
               permission := fromBitsTruncate (port <<< 1) ||| MapPermissionU })

/-- `sys_munmap(start, len)`: rejects an unaligned `start`; computes
`pages = (len - 1 + PAGE_SIZE) / PAGE_SIZE` with wrapping u64 arithmetic;
returns -1 when some checked page has an existing but invalid leaf entry
(`translate(vpn).is_some_and(|p| !p.is_valid())`); otherwise calls
`shrink_to(start, start + (pages - 1) * PAGE_SIZE)` (wrapping) and
returns 0.  The second component records the `shrink_to` arguments. -/
def sys_munmap (translate : PageTranslate) (start len : Nat) : Int × Option (Nat × Nat) :=
  if start &&& (PAGE_SIZE - 1) ≠ 0 then (-1, none)
  else if (List.range (wadd (wsub len 1) PAGE_SIZE / PAGE_SIZE)).any
      (fun i => isSomeAndInvalid (translate (start / PAGE_SIZE + i))) then
    (-1, none)
  else
    (0, some (start,
      wadd start (wmul (wsub (wadd (wsub len 1) PAGE_SIZE / PAGE_SIZE) 1) PAGE_SIZE)))

/-- A framed map area of a memory set: a half-open virtual page range. -/
structure MapArea where
  vpn_start : Nat
  vpn_end : Nat
deriving DecidableEq

/-- Modelled from the spec: `MemorySet::shrink_to(va_start, va_end)`
(`memory_set.rs` is absent from src/) truncates the framed area that
starts at `va_start` so that it ends at `va_end`, unmapping and freeing
the frames of the pages from the new end (rounded up to a page boundary)
to the old end.  Returns the truncated area together with the list of
freed virtual page numbers. -/
def MemorySet.shrink_to (area : MapArea) (va_start va_end : Nat) : MapArea × List Nat :=
  if area.vpn_start = va_start / PAGE_SIZE then
    let new_end := (va_end + PAGE_SIZE - 1) / PAGE_SIZE
    ({ area with vpn_end := new_end }, List.range' new_end (area.vpn_end - new_end))
  else
    (area, [])

/-- `sys_munmap` composed with the (spec-modelled) `shrink_to` effect on
the framed area covering the unmapped range: the syscall result together
with the list of virtual page numbers actually freed. -/
def sys_munmap_freed (area : MapArea) (translate : PageTranslate) (start len : Nat) :
    Int × List Nat :=
  match sys_munmap translate start len with
  | (0, some (s, e)) => (0, (MemorySet.shrink_to area s e).2)
  | (r, _) => (r, [])

/-- The matching predicate of `sys_waitpid` stated at the spec level:
`pid = -1` (any child) or `pid`, cast to `usize`, equals the child's pid. -/
def WaitMatch (pid : Int) (p : ChildTCB) : Prop :=
  pid = -1 ∨ usizeOfInt pid = p.pid

/-! ## Helper lemmas -/

theorem stride_lt_iff (a b : Stride) :
    Stride.lt a b = true ↔ wsub a.pass b.pass < BIG_STRIDE / 2 := by
  by_cases h : wsub a.pass b.pass < BIG_STRIDE / 2 <;>
    simp [Stride.lt, Stride.partialCmp, h] <;> decide

theorem wsub_window_iff (a b m : Nat)
    (ha : wsub a m < BIG_STRIDE / 2) (hb : wsub b m < BIG_STRIDE / 2) :
    (wsub a b < BIG_STRIDE / 2 ↔ wsub b m ≤ wsub a m) := by
  simp only [wsub, BIG_STRIDE, U64_MOD] at *
  omega

theorem low_mask_eq_mod (a : Nat) : a &&& (PAGE_SIZE - 1) = a % PAGE_SIZE := by
  have h : (PAGE_SIZE - 1 : Nat) = 2 ^ 12 - 1 := by norm_num [PAGE_SIZE]
  have h2 : (PAGE_SIZE : Nat) = 2 ^ 12 := by norm_num [PAGE_SIZE]
  rw [h, h2, Nat.and_pow_two_sub_one_eq_mod]

/-! ## Claim theorems -/

/-- C1.  The claim says every dispatch increments the dispatched task's
`pass` by its `step` before execution resumes, so that after `n`
dispatches `pass = n * step (mod 2^64)`.  The source's `run_tasks` marks
the fetched task `Running` and records its first-run timestamp but never
touches its stride (`mark_running`, which does step the stride, is dead
code), so after one dispatch of a task with `pass = 0`, `step = 100` the
pass is still `0`, not `100`; the second conjunct shows the unused
`mark_running` helper is what would have realised the claim. -/
theorem c1_run_tasks_dispatch_leaves_pass_unchanged :
    runTasksStep [⟨⟨0, 100⟩, TaskStatus.Ready, 0⟩] 5
      = some (⟨⟨0, 100⟩, TaskStatus.Running, 5⟩, [])
    ∧ (TaskControlBlock.mark_running ⟨⟨0, 100⟩, TaskStatus.Ready, 0⟩ 5).stride.pass = 100 := by
  exact ⟨by decide, by decide⟩

/-- C2.  The claim says the forked child's `step` equals the parent's
`step` (priority inherited), `pass = 0`, and the child's `a0` is 0.  In
the source `Stride::copy_priority` reads the parent's `pass` field into
the child's `step`: for a parent stride `(pass = 7, step = 100)` the
child comes out as `(pass = 0, step = 7)` with `a0 = 0`, so the `pass`
and `a0` clauses hold but the child's step is the parent's pass, `7`,
not the parent's step, `100`. -/
theorem c2_fork_child_step_copies_parent_pass :
    sys_fork_child ⟨7, 100⟩ 42 = ⟨⟨0, 7⟩, 0, TaskStatus.Ready, 0⟩
    ∧ (sys_fork_child ⟨7, 100⟩ 42).stride.step ≠ (Stride.mk 7 100).step := by
  exact ⟨by decide, by decide⟩

/-- C5.  The tombstone half of the claim holds: `unlink` zeroes the first
matching root-directory entry and returns 0, and returns -1 when no entry
matches.  After the unlink of the only entry for inode 5 the link count is
0 and no descriptor is open, yet the only mutation the source performs is
the directory-entry write: there is no code path that returns the inode
or its data blocks to the bitmaps (the freeing half of the claim). -/
theorem c5_unlink_writes_tombstone_only :
    Inode.unlink [⟨"a", 5⟩] "a" = (0, [DirEntryM.empty])
    ∧ Inode.unlink [⟨"a", 5⟩] "b" = (-1, [⟨"a", 5⟩])
    ∧ DirEntryM.empty = ⟨"", 0⟩
    ∧ link_times [DirEntryM.empty] 5 = 0 := by
  refine ⟨by decide, by decide, by decide, by decide⟩

/-- C9.  `sys_fstat` rejects every `fd <= 2` (the standard descriptors
stdin/stdout/stderr among them) with -1 and writes nothing through the
user pointer, whatever the fd table and root directory contain. -/
theorem c9_fstat_rejects_standard_fds
    (root : List DirEntryM) (fd_table : List (Option OSInodeM)) (fd : Nat)
    (h : fd ≤ 2) :
    sys_fstat root fd_table fd = (-1, none) := by
  unfold sys_fstat
  rw [if_pos (Or.inr h)]

/-- Witness for C9 at the concrete standard-output descriptor `fd = 1` of
a fd table whose first three slots are occupied. -/
theorem c9_fstat_rejects_standard_fds_witness :
    sys_fstat [⟨"a", 3⟩] [some ⟨1, DiskInodeType.File⟩, some ⟨1, DiskInodeType.File⟩,
      some ⟨1, DiskInodeType.File⟩, some ⟨3, DiskInodeType.File⟩] 1 = (-1, none) :=
  c9_fstat_rejects_standard_fds _ _ 1 (by decide)

/-- C10.  For page-aligned `start` and `len = 0`, `sys_munmap` computes
`pages = ((len - 1 + PAGE_SIZE) mod 2^64) / PAGE_SIZE = 0` by wrapping
u64 arithmetic, runs the per-page check loop zero times (the result does
not depend on the page table at all), does not return -1 at validation,
and invokes `shrink_to` with exclusive end
`start + (0 - 1) * PAGE_SIZE mod 2^64 = start - PAGE_SIZE mod 2^64`. -/
theorem c10_munmap_len_zero_wraps
    (translate : PageTranslate) (start : Nat) (ha : start % PAGE_SIZE = 0) :
    sys_munmap translate start 0
      = (0, some (start, (start + (U64_MOD - PAGE_SIZE)) % U64_MOD)) := by
  unfold sys_munmap
  rw [low_mask_eq_mod]
  rw [if_neg (by simp [ha])]
  have hp : wadd (wsub 0 1) PAGE_SIZE / PAGE_SIZE = 0 := by decide
  simp only [hp, List.range_zero, List.any_nil, Bool.false_eq_true, if_false,
    ite_false]
  have he : wmul (wsub 0 1) PAGE_SIZE = U64_MOD - PAGE_SIZE := by decide
  simp [he, wadd]

/-- Witness for C10 at `start = 8192`, `len = 0` over an empty page table. -/
theorem c10_munmap_len_zero_wraps_witness :
    sys_munmap (fun _ => none) 8192 0
      = (0, some (8192, (8192 + (U64_MOD - PAGE_SIZE)) % U64_MOD)) :=
  c10_munmap_len_zero_wraps (fun _ => none) 8192 (by decide)

/-- Counterexample for C4.  The claim says `sys_fstat` writes `mode = DIR`
when the open inode is a directory; the source assigns `StatMode::FILE`
unconditionally.  With a directory inode (id 7) open at fd 3 and one root
entry for it, the syscall succeeds and writes `mode = FILE`, not `DIR`. -/
theorem c4_fstat_mode_cex :
    sys_fstat [⟨"d", 7⟩] [none, none, none, some ⟨7, DiskInodeType.Dir⟩] 3
      = (0, some ⟨0, 7, StatMode.FILE, 1⟩)
    ∧ StatMode.FILE ≠ StatMode.DIR :=
  ⟨by decide, by decide⟩

/-- C4 as amended.  On an open disk-file descriptor (`fd > 2`, slot
occupied) `sys_fstat` returns 0 and writes `dev = 0`, `ino` = the file's
inode id, `mode = StatMode::FILE` regardless of the inode's type, and
`nlink` = the number of root-directory entries carrying that inode id. -/
theorem c4_fstat_fields
    (root : List DirEntryM) (fd_table : List (Option OSInodeM)) (fd : Nat) (os : OSInodeM)
    (h2 : 2 < fd) (hlen : fd < fd_table.length)
    (hfd : fd_table.getD fd none = some os) :
    sys_fstat root fd_table fd
      = (0, some ⟨0, os.inode_id, StatMode.FILE,
          (root.filter (fun d => d.inode_id == os.inode_id)).length⟩) := by
  unfold sys_fstat
  rw [if_neg (by simp only [not_or, not_le]; exact ⟨hlen, h2⟩)]
  rw [hfd]
  simp [link_times, List.countP_eq_length_filter]

/-- Witness for C4 as amended: a file inode with id 3 open at fd 3, with
two root-directory entries ("a" and "b") pointing at inode 3. -/
theorem c4_fstat_fields_witness :
    sys_fstat [⟨"a", 3⟩, ⟨"b", 3⟩]
      [none, none, none, some ⟨3, DiskInodeType.File⟩] 3
      = (0, some ⟨0, 3, StatMode.FILE, 2⟩) := by
  have h := c4_fstat_fields [⟨"a", 3⟩, ⟨"b", 3⟩]
    [none, none, none, some ⟨3, DiskInodeType.File⟩] 3 ⟨3, DiskInodeType.File⟩
    (by decide) (by decide) (by decide)
  exact h.trans (by decide)

theorem childMatches_iff (pid : Int) (p : ChildTCB) :
    childMatches pid p = true ↔ WaitMatch pid p := by
  simp [childMatches, WaitMatch, Bool.or_eq_true, beq_iff_eq]

theorem is_zombie_iff (p : ChildTCB) :
    p.is_zombie = true ↔ p.status = TaskStatus.Zombie := by
  simp [ChildTCB.is_zombie, beq_iff_eq]

theorem findWaitChild_none_iff (pid : Int) (l : List ChildTCB) :
    findWaitChild pid l = none ↔
      ∀ p ∈ l, ¬(p.is_zombie && childMatches pid p) = true := by
  induction l with
  | nil => simp [findWaitChild]
  | cons p rest ih =>
      rw [findWaitChild]
      by_cases h : (p.is_zombie && childMatches pid p) = true
      · rw [if_pos h]
        constructor
        · intro hsome; simp at hsome
        · intro hall
          exact absurd h (hall p (List.mem_cons_self p rest))
      · rw [if_neg h]
        cases hr : findWaitChild pid rest with
        | none =>
            constructor
            · intro _ q hq
              rcases List.mem_cons.mp hq with rfl | hq2
              · exact h
              · exact (ih.mp hr) q hq2
            · intro _; rfl
        | some jc =>
            obtain ⟨j, c⟩ := jc
            constructor
            · intro hsome; simp at hsome
            · intro hall
              have hn : findWaitChild pid rest = none :=
                ih.mpr (fun q hq => hall q (List.mem_cons_of_mem p hq))
              rw [hr] at hn
              simp at hn

theorem findWaitChild_some (pid : Int) (l : List ChildTCB) (i : Nat) (c : ChildTCB)
    (h : findWaitChild pid l = some (i, c)) :
    l[i]? = some c ∧ (c.is_zombie && childMatches pid c) = true := by
  induction l generalizing i with
  | nil => simp [findWaitChild] at h
  | cons p rest ih =>
      rw [findWaitChild] at h
      by_cases hp : (p.is_zombie && childMatches pid p) = true
      · rw [if_pos hp] at h
        simp only [Option.some.injEq, Prod.mk.injEq] at h
        obtain ⟨rfl, rfl⟩ := h
        exact ⟨by simp, hp⟩
      · rw [if_neg hp] at h
        cases hr : findWaitChild pid rest with
        | none => rw [hr] at h; simp at h
        | some jc =>
            obtain ⟨j, c2⟩ := jc
            rw [hr] at h
            simp only [Option.some.injEq, Prod.mk.injEq] at h
            obtain ⟨rfl, rfl⟩ := h
            obtain ⟨hg, hc⟩ := ih j hr
            exact ⟨by simpa using hg, hc⟩

/-- C8.  `sys_waitpid` returns -1 (children untouched, nothing written)
when no child matches `pid`; returns -2 (children untouched, nothing
written) when some child matches but no matching child is a zombie; and
otherwise removes a matching zombie child at its index from the children
vector, writes that child's exit code through the user pointer, and
returns the child's pid. -/
theorem c8_waitpid_cases (children : List ChildTCB) (pid : Int) :
    ((¬ ∃ p ∈ children, WaitMatch pid p) →
        sys_waitpid children pid = (-1, children, none))
    ∧ ((∃ p ∈ children, WaitMatch pid p) →
        (∀ p ∈ children, ¬(WaitMatch pid p ∧ p.status = TaskStatus.Zombie)) →
        sys_waitpid children pid = (-2, children, none))
    ∧ ((∃ p ∈ children, WaitMatch pid p ∧ p.status = TaskStatus.Zombie) →
        ∃ i c, children[i]? = some c ∧ WaitMatch pid c
          ∧ c.status = TaskStatus.Zombie
          ∧ sys_waitpid children pid
              = (Int.ofNat c.pid, children.eraseIdx i, some c.exit_code)) := by
  refine ⟨?_, ?_, ?_⟩
  · intro hno
    have ha : children.any (childMatches pid) = false := by
      rw [List.any_eq_false]
      intro p hp hw
      exact hno ⟨p, hp, (childMatches_iff pid p).1 hw⟩
    simp [sys_waitpid, ha]
  · rintro ⟨p, hp, hw⟩ hnz
    have ha : children.any (childMatches pid) = true :=
      List.any_eq_true.2 ⟨p, hp, (childMatches_iff pid p).2 hw⟩
    have hfind : findWaitChild pid children = none := by
      rw [findWaitChild_none_iff]
      intro q hq hqt
      rw [Bool.and_eq_true, is_zombie_iff, childMatches_iff] at hqt
      exact hnz q hq ⟨hqt.2, hqt.1⟩
    simp [sys_waitpid, ha, hfind]
  · rintro ⟨p, hp, hw, hz⟩
    have ha : children.any (childMatches pid) = true :=
      List.any_eq_true.2 ⟨p, hp, (childMatches_iff pid p).2 hw⟩
    cases hfind : findWaitChild pid children with
    | none =>
        exfalso
        have := (findWaitChild_none_iff pid children).1 hfind p hp
        rw [Bool.and_eq_true, is_zombie_iff, childMatches_iff] at this
        exact this ⟨hz, hw⟩
    | some ic =>
        obtain ⟨i, c⟩ := ic
        obtain ⟨hg, hc⟩ := findWaitChild_some pid children i c hfind
        rw [Bool.and_eq_true, is_zombie_iff, childMatches_iff] at hc
        refine ⟨i, c, hg, hc.2, hc.1, ?_⟩
        simp [sys_waitpid, ha, hfind]

/-- Witness for C8: a caller with no children asking for pid 5 gets -1. -/
theorem c8_waitpid_cases_witness :
    sys_waitpid [] 5 = (-1, [], none) :=
  (c8_waitpid_cases [] 5).1 (by simp)

theorem fetchScan_getElem (dq : List TaskControlBlock) (l : List TaskControlBlock) :
    ∀ (i : Nat) (best : Nat × TaskControlBlock),
      dq[best.1]? = some best.2 → dq.drop i = l →
      dq[(fetchScan l i best).1]? = some (fetchScan l i best).2 := by
  induction l with
  | nil => intro i best hb _; exact hb
  | cons t rest ih =>
      intro i best hb hd
      have ht : dq[i]? = some t := by
        have hq := List.getElem?_drop dq i 0
        rw [hd] at hq
        simpa using hq.symm
      have hd2 : dq.drop (i + 1) = rest := by
        have hq : dq.drop (i + 1) = (dq.drop i).drop 1 := by
          rw [List.drop_drop, Nat.add_comm]
        rw [hq, hd, List.drop_one, List.tail_cons]
      rw [fetchScan]
      by_cases hlt : Stride.lt t.stride best.2.stride = true
      · rw [if_pos hlt]
        exact ih (i + 1) (i, t) ht hd2
      · rw [if_neg hlt]
        exact ih (i + 1) best hb hd2

theorem fetchScan_min (m : Nat) (l : List TaskControlBlock) :
    ∀ (i : Nat) (best : Nat × TaskControlBlock),
      (∀ t ∈ l, wsub t.stride.pass m < BIG_STRIDE / 2) →
      wsub best.2.stride.pass m < BIG_STRIDE / 2 →
      (wsub (fetchScan l i best).2.stride.pass m < BIG_STRIDE / 2
        ∧ wsub best.2.stride.pass m ≤ wsub (fetchScan l i best).2.stride.pass m
        ∧ ∀ t ∈ l, wsub t.stride.pass m ≤ wsub (fetchScan l i best).2.stride.pass m) := by
  induction l with
  | nil => intro i best _ hb; exact ⟨hb, le_refl _, by simp⟩
  | cons t rest ih =>
      intro i best hl hb
      have ht : wsub t.stride.pass m < BIG_STRIDE / 2 :=
        hl t (List.mem_cons_self t rest)
      have hrest : ∀ q ∈ rest, wsub q.stride.pass m < BIG_STRIDE / 2 :=
        fun q hq => hl q (List.mem_cons_of_mem t hq)
      rw [fetchScan]
      by_cases hlt : Stride.lt t.stride best.2.stride = true
      · rw [if_pos hlt]
        have hkey : wsub best.2.stride.pass m ≤ wsub t.stride.pass m :=
          (wsub_window_iff _ _ m ht hb).1 ((stride_lt_iff t.stride best.2.stride).1 hlt)
        obtain ⟨h1, h2, h3⟩ := ih (i + 1) (i, t) hrest ht
        refine ⟨h1, le_trans hkey h2, fun q hq => ?_⟩
        rcases List.mem_cons.mp hq with rfl | hq2
        · exact h2
        · exact h3 q hq2
      · rw [if_neg hlt]
        have hkey : wsub t.stride.pass m ≤ wsub best.2.stride.pass m := by
          have hnle : ¬ (wsub best.2.stride.pass m ≤ wsub t.stride.pass m) := by
            intro hle
            exact hlt ((stride_lt_iff t.stride best.2.stride).2
              ((wsub_window_iff _ _ m ht hb).2 hle))
          omega
        obtain ⟨h1, h2, h3⟩ := ih (i + 1) best hrest hb
        refine ⟨h1, h2, fun q hq => ?_⟩
        rcases List.mem_cons.mp hq with rfl | hq2
        · exact le_trans hkey h2
        · exact h3 q hq2

/-- Counterexample for C6.  On the queue of strides with passes
`[0, 2^63, 2]` the scan of `fetch` returns the task with pass 2, yet the
queued task with pass `2^63` strictly precedes it under the stride order
(and not conversely), so `fetch` does not in general return a minimal
element of the queue. -/
theorem c6_fetch_not_minimal_cex :
    TaskManager.fetch
        [⟨⟨0, 10⟩, TaskStatus.Ready, 0⟩, ⟨⟨2 ^ 63, 10⟩, TaskStatus.Ready, 0⟩,
          ⟨⟨2, 10⟩, TaskStatus.Ready, 0⟩]
      = some (⟨⟨2, 10⟩, TaskStatus.Ready, 0⟩,
          [⟨⟨0, 10⟩, TaskStatus.Ready, 0⟩, ⟨⟨2 ^ 63, 10⟩, TaskStatus.Ready, 0⟩])
    ∧ Stride.lt ⟨2 ^ 63, 10⟩ ⟨2, 10⟩ = true
    ∧ Stride.lt ⟨2, 10⟩ ⟨2 ^ 63, 10⟩ = false :=
  ⟨by decide, by decide, by decide⟩

/-- C6 as amended.  Stride `A` precedes (`<`) stride `B` iff
`(A.pass - B.pass) mod 2^64 < BIG_STRIDE / 2`; `add` appends to the back
of the ready queue; and whenever all queued passes lie inside a
half-window of width `BIG_STRIDE / 2` around some origin `m` (the
scheduler invariant), `fetch` removes an element at some index of the
queue and returns it, and the returned element precedes every element of
the queue. -/
theorem c6_stride_order_and_fetch_min :
    (∀ a b : Stride, Stride.lt a b = true ↔ wsub a.pass b.pass < BIG_STRIDE / 2)
    ∧ (∀ (dq : List TaskControlBlock) (t : TaskControlBlock),
        TaskManager.add dq t = dq ++ [t])
    ∧ (∀ (dq : List TaskControlBlock) (m : Nat) (r : TaskControlBlock)
        (rest : List TaskControlBlock),
        (∀ t ∈ dq, wsub t.stride.pass m < BIG_STRIDE / 2) →
        TaskManager.fetch dq = some (r, rest) →
        ((∃ i, dq[i]? = some r ∧ rest = dq.eraseIdx i)
          ∧ ∀ b ∈ dq, Stride.lt r.stride b.stride = true)) := by
  refine ⟨stride_lt_iff, fun _ _ => rfl, ?_⟩
  intro dq m r rest hw hf
  cases dq with
  | nil => simp [TaskManager.fetch] at hf
  | cons t0 tl =>
      rw [TaskManager.fetch] at hf
      simp only [Option.some.injEq, Prod.mk.injEq] at hf
      obtain ⟨hr, hrest⟩ := hf
      have hget : (t0 :: tl)[(fetchScan (t0 :: tl) 0 (0, t0)).1]?
          = some (fetchScan (t0 :: tl) 0 (0, t0)).2 :=
        fetchScan_getElem (t0 :: tl) (t0 :: tl) 0 (0, t0) (by simp) rfl
      have ht0 : wsub t0.stride.pass m < BIG_STRIDE / 2 :=
        hw t0 (List.mem_cons_self t0 tl)
      obtain ⟨h1, _, h3⟩ := fetchScan_min m (t0 :: tl) 0 (0, t0) hw ht0
      subst hr hrest
      refine ⟨⟨(fetchScan (t0 :: tl) 0 (0, t0)).1, hget, rfl⟩, ?_⟩
      intro b hb
      exact (stride_lt_iff _ _).2
        ((wsub_window_iff _ _ m h1 (hw b hb)).2 (h3 b hb))

theorem port_low_of_and_high_zero (port : Nat) (h64 : port < U64_MOD)
    (h : port &&& (U64_MOD - 8) = 0) : port < 8 := by
  have hbits : ∀ i, 3 ≤ i → port.testBit i = false := by
    intro i hi
    by_cases hlt : i < 64
    · have hmask : (U64_MOD - 8 : Nat).testBit i = true := by
        have he : (U64_MOD - 8 : Nat) = (2 ^ 61 - 1) <<< 3 := by
          norm_num [U64_MOD, Nat.shiftLeft_eq]
        rw [he, Nat.testBit_shiftLeft, Nat.testBit_two_pow_sub_one]
        simp only [Bool.and_eq_true, decide_eq_true_eq]
        exact ⟨hi, by omega⟩
      have hb := congrArg (fun x => x.testBit i) h
      simp only [Nat.testBit_and, Nat.zero_testBit] at hb
      rw [hmask, Bool.and_true] at hb
      exact hb
    · have hle : U64_MOD ≤ 2 ^ i := by
        calc U64_MOD = 2 ^ 64 := rfl
          _ ≤ 2 ^ i := Nat.pow_le_pow_right (by norm_num) (by omega)
      exact Nat.testBit_lt_two_pow (lt_of_lt_of_le h64 hle)
  have hlt : port < 2 ^ 3 :=
    Nat.lt_pow_two_of_testBit port (fun i hi => hbits i hi)
  simpa using hlt

theorem fromBitsTruncate_shift (port : Nat) (h : port < 8) :
    fromBitsTruncate (port <<< 1) = port <<< 1 := by
  interval_cases port <;> decide

/-- Counterexample for C7.  For `len = 2^64 - 1` the page count
`(len - 1 + PAGE_SIZE) / PAGE_SIZE` wraps modulo `2^64` to 0, so with
page 0 of `[start, start + len)` already valid in the page table the
syscall skips the overlap check entirely and returns 0 (inserting an
empty area) where the claim requires -1. -/
theorem c7_mmap_overflow_cex :
    sys_mmap (fun v => if v = 0 then some true else none) 0 (U64_MOD - 1) 1
      = (0, some ⟨0, 0, 18⟩)
    ∧ isSomeAndValid ((fun v => if v = 0 then some true else none) (0 / PAGE_SIZE)) = true
    ∧ (U64_MOD - 1 : Nat) ≠ 0 :=
  ⟨by decide, by decide, by decide⟩

/-- C7 as amended.  For arguments without u64 overflow in the page count
and the area end (`start + len + PAGE_SIZE ≤ 2^64`, `port < 2^64`),
`sys_mmap` returns -1 iff `len = 0`, or `port & !0x7 != 0`, or
`port & 0x7 == 0`, or `start` is not page-aligned, or some of the
`ceil(len / PAGE_SIZE)` pages starting at `start / PAGE_SIZE` is already
mapped; otherwise it inserts a framed area of exactly
`ceil(len / PAGE_SIZE)` pages at `start` with permission
`(port << 1) | U` and returns 0. -/
theorem c7_mmap_checks (tr : PageTranslate) (start len port : Nat)
    (hsl : start + len + PAGE_SIZE ≤ U64_MOD) (hport : port < U64_MOD) :
    ((sys_mmap tr start len port).1 = -1 ↔
      (len = 0 ∨ port &&& (U64_MOD - 8) ≠ 0 ∨ port &&& 7 = 0
        ∨ start % PAGE_SIZE ≠ 0
        ∨ ∃ i < (len + PAGE_SIZE - 1) / PAGE_SIZE,
            isSomeAndValid (tr (start / PAGE_SIZE + i)) = true))
    ∧ ((sys_mmap tr start len port).1 ≠ -1 →
        sys_mmap tr start len port
          = (0, some ⟨start, start + ((len + PAGE_SIZE - 1) / PAGE_SIZE) * PAGE_SIZE,
              (port <<< 1) ||| MapPermissionU⟩)) := by
  unfold sys_mmap
  by_cases h0 : len = 0
  · simp [h0]
  rw [if_neg h0]
  by_cases h1 : port &&& (U64_MOD - 8) ≠ 0
  · rw [if_pos h1]
    exact ⟨by simp [h0, h1], fun hne => absurd rfl hne⟩
  rw [if_neg h1]
  push_neg at h1
  by_cases h2 : port &&& 7 = 0
  · rw [if_pos h2]
    exact ⟨by simp [h0, h1, h2], fun hne => absurd rfl hne⟩
  rw [if_neg h2]
  by_cases h3 : start &&& (PAGE_SIZE - 1) ≠ 0
  · rw [if_pos h3]
    rw [low_mask_eq_mod] at h3
    exact ⟨by simp [h0, h1, h2, h3], fun hne => absurd rfl hne⟩
  rw [if_neg h3]
  rw [low_mask_eq_mod] at h3
  push_neg at h3
  have hw1 : wsub len 1 = len - 1 := by
    simp only [wsub, U64_MOD, PAGE_SIZE] at *
    omega
  have hw2 : wadd (len - 1) PAGE_SIZE = len + PAGE_SIZE - 1 := by
    simp only [wadd, U64_MOD, PAGE_SIZE] at *
    omega
  rw [hw1, hw2]
  by_cases h4 : (List.range ((len + PAGE_SIZE - 1) / PAGE_SIZE)).any
      (fun i => isSomeAndValid (tr (start / PAGE_SIZE + i))) = true
  · rw [if_pos h4]
    refine ⟨⟨fun _ => ?_, fun _ => rfl⟩, fun hne => absurd rfl hne⟩
    obtain ⟨i, hi, hp⟩ := List.any_eq_true.1 h4
    exact Or.inr (Or.inr (Or.inr (Or.inr ⟨i, List.mem_range.1 hi, hp⟩)))
  · rw [if_neg h4]
    have hnot : ¬ ∃ i < (len + PAGE_SIZE - 1) / PAGE_SIZE,
        isSomeAndValid (tr (start / PAGE_SIZE + i)) = true := by
      rintro ⟨i, hi, hp⟩
      exact h4 (List.any_eq_true.2 ⟨i, List.mem_range.2 hi, hp⟩)
    constructor
    · constructor
      · intro habs
        simp at habs
      · rintro (h | h | h | h | h)
        · exact absurd h h0
        · exact absurd h1 h
        · exact absurd h h2
        · exact absurd h3 h
        · exact absurd h hnot
    · intro _
      have hperm : fromBitsTruncate (port <<< 1) = port <<< 1 :=
        fromBitsTruncate_shift port (port_low_of_and_high_zero port hport h1)
      have hm1 : wmul ((len + PAGE_SIZE - 1) / PAGE_SIZE) PAGE_SIZE
          = ((len + PAGE_SIZE - 1) / PAGE_SIZE) * PAGE_SIZE := by
        simp only [wmul, U64_MOD, PAGE_SIZE] at *
        omega
      have hm2 : wadd start (((len + PAGE_SIZE - 1) / PAGE_SIZE) * PAGE_SIZE)
          = start + ((len + PAGE_SIZE - 1) / PAGE_SIZE) * PAGE_SIZE := by
        simp only [wadd, U64_MOD, PAGE_SIZE] at *
        omega
      rw [hm1, hm2, hperm]

/-- Witness for C7 as amended: `mmap(0x10000, 8192, 3)` over an empty
page table succeeds with a two-page read/write user area. -/
theorem c7_mmap_checks_witness :
    (¬ ((sys_mmap (fun _ => none) 65536 8192 3).1 = -1))
    ∧ sys_mmap (fun _ => none) 65536 8192 3
        = (0, some ⟨65536, 65536 + ((8192 + PAGE_SIZE - 1) / PAGE_SIZE) * PAGE_SIZE,
            (3 <<< 1) ||| MapPermissionU⟩) := by
  have hne : ¬ ((sys_mmap (fun _ => none) 65536 8192 3).1 = -1) := by decide
  exact ⟨hne, (c7_mmap_checks (fun _ => none) 65536 8192 3 (by decide) (by decide)).2 hne⟩

/-- Failing-input theorem for C3.  With a two-page framed area at vpns
16 and 17 (va 0x10000, both pages mapped and valid),
`munmap(0x10000, 8192)` passes validation and returns 0 but hands
`shrink_to` the exclusive end `0x11000 = start + (pages - 1) * PAGE_SIZE`,
so only vpn 17 is unmapped and freed; the claim requires both pages
(`ceil(8192 / 4096) = 2`) to be freed. -/
theorem c3_munmap_under_releases :
    sys_munmap_freed ⟨16, 18⟩ (fun v => if v = 16 ∨ v = 17 then some true else none)
        65536 8192
      = (0, [17])
    ∧ ([17] : List Nat) ≠ [16, 17] :=
  ⟨by decide, by decide⟩

/-- Witness for C6 as amended: on the singleton queue with pass 5 inside
the half-window around 0, the fetched task precedes the queued task. -/
theorem c6_stride_order_and_fetch_min_witness :
    Stride.lt ⟨5, 1⟩ ⟨5, 1⟩ = true :=
  (c6_stride_order_and_fetch_min.2.2 [⟨⟨5, 1⟩, TaskStatus.Ready, 0⟩] 0
    ⟨⟨5, 1⟩, TaskStatus.Ready, 0⟩ [] (by decide) (by decide)).2
    ⟨⟨5, 1⟩, TaskStatus.Ready, 0⟩ (by simp)

end RCore
